import Mathlib

/-!
# Verification of the versuchung experiment lifecycle and identity engine

A shallow embedding of `versuchung/experiment.py` (and the `Directory`
type of `versuchung/types.py`) together with proofs about the identity
hasher, the metadata codec, the run lifecycle and the re-hydration paths.

Modelling conventions:
* Python `dict`s (insertion ordered, unique keys) are association lists
  `List (String × String)`; `dict.update` keeps the position of an
  existing key and appends new keys, exactly like CPython.
* `hashlib.md5` is abstracted by the byte stream fed to it: `m.update(c)`
  appends the chunk `c`, and `m.hexdigest()` is an arbitrary function `H`
  of the accumulated stream.  All theorems are uniform in `H`.
* Filesystem state is explicit (directory listings as `List String`,
  the working directory as a `String`).
-/

/-- A Python `dict` from names to (stringified) values, as an ordered
association list with unique keys. -/
abbrev Metadata := List (String × String)

/-- Insertion of a single binding, with CPython `dict` semantics: an
existing key is overwritten in place, a new key is appended at the end. -/
def dictInsert : Metadata → String → String → Metadata
  | [], k, v => [(k, v)]
  | (k', v') :: rest, k, v =>
    if k' = k then (k, v) :: rest else (k', v') :: dictInsert rest k v

/-- `d.update(other)`: fold `dictInsert` over the entries of `other`. -/
def dictUpdate (m : Metadata) (entries : Metadata) : Metadata :=
  entries.foldl (fun acc kv => dictInsert acc kv.1 kv.2) m

/-- `d[k]` as an optional lookup (first binding of the key). -/
def dictFind : Metadata → String → Option String
  | [], _ => none
  | (k', v') :: rest, k => if k' = k then some v' else dictFind rest k

/-- `d.keys()` in insertion order. -/
def dictKeys (m : Metadata) : List String := m.map Prod.fst

/-- `sorted(d.keys())`: Python sorts strings lexicographically by code
point, which is the `LinearOrder` on `String`. -/
def sortedKeys (m : Metadata) : List String :=
  List.insertionSort (· ≤ ·) (dictKeys m)

/-- The state of a `hashlib.md5` object, abstracted to the byte stream
that has been fed to it so far. -/
structure MD5State where
  fed : String
deriving DecidableEq

/-- `hashlib.md5()`. -/
def md5_init : MD5State := ⟨""⟩

/-- `m.update(chunk)` appends to the fed stream. -/
def md5_update (s : MD5State) (chunk : String) : MD5State := ⟨s.fed ++ chunk⟩

/-- Input parameter declarations, as far as their metadata contribution
is concerned (`inp_metadata` of each parameter class). -/
inductive InputDecl where
  /-- `versuchung.types.String`: `inp_metadata = {name: value}`. -/
  | scalarString (value : String)
  /-- `FilesystemObject` (`File`/`Directory`): `inp_metadata = {name: object_name}`,
  the relative name, never the absolute path. -/
  | fsObject (objectName : String)
  /-- A finished `Experiment` used as input:
  `inp_metadata = {name: experiment_instance}` (the identity string). -/
  | nestedExperiment (identifier : String)
  /-- A bare `InputParameter`: contributes `{}`. -/
  | bare
  /-- A lambda (computed input); `resolved` is the parameter object the
  lambda returns once it is called on the experiment. -/
  | deferred (resolved : InputDecl)
deriving DecidableEq

instance : Inhabited InputDecl := ⟨InputDecl.bare⟩

/-- `inp_metadata()` of a named input parameter (only called on resolved,
non-lambda parameters). -/
def inp_metadata (name : String) : InputDecl → Metadata
  | .scalarString v => [(name, v)]
  | .fsObject n => [(name, n)]
  | .nestedExperiment i => [(name, i)]
  | .bare => []
  | .deferred d => inp_metadata name d

/-- `type(inp) == LambdaType`. -/
def isDeferred : InputDecl → Bool
  | .deferred _ => true
  | _ => false

/-- The resolution `inp = inp(self)` performed in `before_experiment_run`
for lambda inputs; declared parameters are left untouched. -/
def resolveInput : InputDecl → InputDecl
  | .deferred d => d
  | i => i

/-- An output parameter declaration; `objectName` stands for whatever the
declaration carries (e.g. a `File` output's default filename). -/
structure OutputDecl where
  objectName : String
deriving DecidableEq

/-- The statically declared part of an experiment that identity depends
on: title, version and the named input/output declarations. -/
structure Experiment where
  title : String
  version : Nat
  inputs : List (String × InputDecl)
  outputs : List (String × OutputDecl)
deriving DecidableEq

/-- Lines 351–353 of `experiment.py`:
`metadata = {}` and `metadata.update(self.inputs[name].inp_metadata())`
over the inputs in declaration order. -/
def build_metadata (inputs : List (String × InputDecl)) : Metadata :=
  inputs.foldl (fun md ni => dictUpdate md (inp_metadata ni.1 ni.2)) []

/-- The default `filter_metadata` hook (lines 491–499): the identity. -/
def filter_metadata (m : Metadata) : Metadata := m

/-- Lines 354–358: feed `"version " + str(version)` and then, for each
key of the filtered map in sorted order, `key + " " + str(map[key])`. -/
def calc_hash_state (version : Nat) (calc_metadata : Metadata) : MD5State :=
  (sortedKeys calc_metadata).foldl
    (fun m key => md5_update m (key ++ " " ++ ((dictFind calc_metadata key).getD "")))
    (md5_update md5_init ("version " ++ toString version))

/-- Line 360, factored over the configuration map:
`"%s-%s" % (self.title, m.hexdigest())` where `H` stands for the
hexdigest as a function of the fed stream. -/
def identity_of_map (H : String → String) (title : String) (version : Nat)
    (M : Metadata) : String :=
  title ++ "-" ++ H (calc_hash_state version (filter_metadata M)).fed

/-- `__calculate_metadata`'s identity computation for an experiment whose
lambda inputs have been resolved by `before_experiment_run`. -/
def calculate_identity (H : String → String) (e : Experiment) : String :=
  identity_of_map H e.title e.version
    (build_metadata (e.inputs.map (fun ni => (ni.1, resolveInput ni.2))))

/-- Concatenation of a list of strings (used to state what the digest is
fed, following the spec's words). -/
def concatList : List String → String
  | [] => ""
  | s :: rest => s ++ concatList rest

/-- The identity as the spec words it: `<title>-<hex-digest>` where the
digest is taken over `"version " + version` concatenated with every
`key + " " + str(value)` pair, keys sorted lexicographically. -/
def spec_identity (H : String → String) (title : String) (version : Nat)
    (M : Metadata) : String :=
  title ++ "-" ++
    H (concatList (("version " ++ toString version) ::
        (List.insertionSort (· ≤ ·) (M.map Prod.fst)).map
          (fun k => k ++ " " ++ ((dictFind M k).getD ""))))

lemma md5_foldl_fed (l : List String) (f : String → String) (init : String) :
    (l.foldl (fun (s : MD5State) k => md5_update s (f k)) ⟨init⟩).fed
      = init ++ concatList (l.map f) := by
  induction l generalizing init with
  | nil => simp [concatList]
  | cons a rest ih =>
    show (List.foldl (fun (s : MD5State) k => md5_update s (f k))
        ⟨init ++ f a⟩ rest).fed = init ++ concatList ((a :: rest).map f)
    rw [ih, List.map_cons]
    show init ++ f a ++ concatList (List.map f rest)
        = init ++ (f a ++ concatList (List.map f rest))
    rw [String.append_assoc]

lemma calc_hash_state_fed (version : Nat) (M : Metadata) :
    (calc_hash_state version M).fed
      = ("version " ++ toString version) ++
          concatList ((sortedKeys M).map
            (fun k => k ++ " " ++ ((dictFind M k).getD ""))) := by
  unfold calc_hash_state
  have h := md5_foldl_fed (sortedKeys M)
    (fun k => k ++ " " ++ ((dictFind M k).getD ""))
    ("" ++ ("version " ++ toString version))
  simpa [md5_update, md5_init] using h

lemma dictKeys_perm {m1 m2 : Metadata} (h : m1.Perm m2) :
    (dictKeys m1).Perm (dictKeys m2) := h.map Prod.fst

lemma dictFind_of_perm {m1 m2 : Metadata} (h : m1.Perm m2)
    (hnd : (dictKeys m1).Nodup) : ∀ k, dictFind m1 k = dictFind m2 k := by
  induction h with
  | nil => intro k; rfl
  | cons x h' ih =>
    rename_i t1 t2
    intro k
    obtain ⟨xk, xv⟩ := x
    have hnd' : (dictKeys t1).Nodup := by
      have hcons : (xk :: dictKeys t1).Nodup := by simpa [dictKeys] using hnd
      exact hcons.of_cons
    simp only [dictFind]
    by_cases hx : xk = k
    · simp [hx]
    · simp only [hx, if_false]
      exact ih hnd' k
  | swap x y l =>
    intro k
    obtain ⟨xk, xv⟩ := x
    obtain ⟨yk, yv⟩ := y
    have hne : yk ≠ xk := by
      have := hnd
      simp only [dictKeys, List.map_cons, List.nodup_cons, List.mem_cons] at this
      exact fun hEq => this.1 (Or.inl hEq)
    simp only [dictFind]
    by_cases hy : yk = k
    · have hx : xk ≠ k := fun hEq => hne (hy.trans hEq.symm)
      simp [hy, hx]
    · simp [hy]
  | trans h12 h23 ih1 ih2 =>
    rename_i l1 l2 l3
    intro k
    have hnd2 : (dictKeys l2).Nodup := (List.Perm.nodup_iff (dictKeys_perm h12)).1 hnd
    exact (ih1 hnd k).trans (ih2 hnd2 k)

lemma sortedKeys_of_perm {m1 m2 : Metadata} (h : m1.Perm m2) :
    sortedKeys m1 = sortedKeys m2 := by
  have hp : (sortedKeys m1).Perm (sortedKeys m2) :=
    (List.perm_insertionSort _ _).trans
      ((dictKeys_perm h).trans (List.perm_insertionSort _ _).symm)
  have hs1 : List.Sorted (fun a b : String => a ≤ b) (sortedKeys m1) :=
    List.sorted_insertionSort _ _
  have hs2 : List.Sorted (fun a b : String => a ≤ b) (sortedKeys m2) :=
    List.sorted_insertionSort _ _
  exact List.eq_of_perm_of_sorted hp hs1 hs2

/-- **C1.** The identity computed by `__calculate_metadata` is exactly
`<title>-<H(payload)>` where the payload is `"version " + str(version)`
followed by `key + " " + value` for the configuration keys in
lexicographically sorted order; in particular an experiment with one
scalar input `"n"` of value `"1"` and version 1 has identity
`<title>-<H("version 1" ++ "n 1")>`. -/
theorem calculate_identity_matches_spec :
    (∀ (H : String → String) (e : Experiment),
        calculate_identity H e
          = spec_identity H e.title e.version
              (build_metadata (e.inputs.map (fun ni => (ni.1, resolveInput ni.2)))))
    ∧ (∀ (H : String → String) (T : String),
        calculate_identity H ⟨T, 1, [("n", InputDecl.scalarString "1")], []⟩
          = T ++ "-" ++ H ("version 1" ++ "n 1")) := by
  constructor
  · intro H e
    unfold calculate_identity identity_of_map spec_identity filter_metadata
    rw [calc_hash_state_fed]
    rfl
  · intro H T
    have hfed : (calc_hash_state 1 (filter_metadata (build_metadata
        (([("n", InputDecl.scalarString "1")] : List (String × InputDecl)).map
          (fun ni => (ni.1, resolveInput ni.2)))))).fed
          = "version 1" ++ "n 1" := by decide
    unfold calculate_identity identity_of_map
    rw [hfed]

/-- **C2.** Two configuration maps holding exactly the same key/value
pairs (a permutation of one another, keys unique as in a Python dict)
hash to the same identity for a fixed title and version. -/
theorem identity_independent_of_insertion_order
    (H : String → String) (title : String) (version : Nat)
    (m1 m2 : Metadata) (hperm : m1.Perm m2) (hnd : (dictKeys m1).Nodup) :
    identity_of_map H title version m1 = identity_of_map H title version m2 := by
  have hfed : (calc_hash_state version m1).fed = (calc_hash_state version m2).fed := by
    rw [calc_hash_state_fed, calc_hash_state_fed, sortedKeys_of_perm hperm]
    have hmap : List.map (fun k => k ++ " " ++ ((dictFind m1 k).getD ""))
          (sortedKeys m2)
        = List.map (fun k => k ++ " " ++ ((dictFind m2 k).getD ""))
          (sortedKeys m2) := by
      apply List.map_congr_left
      intro k _
      rw [dictFind_of_perm hperm hnd k]
    rw [hmap]
  unfold identity_of_map filter_metadata
  rw [hfed]

/-- Witness for C2 at a concrete pair of maps that differ only in
insertion order. -/
theorem identity_independent_of_insertion_order_witness :
    identity_of_map (fun s => s) "E" 1 [("b", "2"), ("a", "1")]
      = identity_of_map (fun s => s) "E" 1 [("a", "1"), ("b", "2")] :=
  identity_independent_of_insertion_order (fun s => s) "E" 1
    [("b", "2"), ("a", "1")] [("a", "1"), ("b", "2")]
    (List.Perm.swap ("a", "1") ("b", "2") []) (by decide)

/-- **C3.** The configuration map hashed for identity is built from the
inputs alone: two experiments with the same title, version and inputs
have the same identity no matter how their output declarations differ. -/
theorem identity_ignores_outputs (H : String → String) (e1 e2 : Experiment)
    (ht : e1.title = e2.title) (hv : e1.version = e2.version)
    (hi : e1.inputs = e2.inputs) :
    calculate_identity H e1 = calculate_identity H e2 := by
  unfold calculate_identity
  rw [ht, hv, hi]

/-- Witness for C3: changing only an output parameter's declared value
leaves the identity unchanged. -/
theorem identity_ignores_outputs_witness :
    calculate_identity (fun s => s)
        ⟨"E", 1, [("n", InputDecl.scalarString "1")], [("out", ⟨"f.txt"⟩)]⟩
      = calculate_identity (fun s => s)
        ⟨"E", 1, [("n", InputDecl.scalarString "1")], [("out", ⟨"other.dat"⟩)]⟩ :=
  identity_ignores_outputs (fun s => s) _ _ rfl rfl rfl

lemma dictFind_dictInsert (m : Metadata) (k v k' : String) :
    dictFind (dictInsert m k v) k' = if k = k' then some v else dictFind m k' := by
  induction m with
  | nil =>
    simp only [dictInsert, dictFind]
  | cons p rest ih =>
    obtain ⟨pk, pv⟩ := p
    simp only [dictInsert]
    by_cases hp : pk = k
    · simp only [hp, if_true, dictFind]
      by_cases h : k = k' <;> simp [h]
    · simp only [hp, if_false, dictFind]
      by_cases h : pk = k'
      · have hkk : ¬(k = k') := fun hkk => hp (h.trans hkk.symm)
        simp [h, hkk]
      · simp [h, ih]

/-- Result of loading the persisted `metadata` record in `__reinit__`. -/
inductive MetadataLoadResult where
  | ok (m : Metadata)
  | corruptRecord (message : String)
deriving DecidableEq

/-- The `RuntimeError` message of line 157. -/
def metadata_eval_error_message : String :=
  "metadata is invalid JSON. Set VERSUCHUNG_METADATA_EVAL=1 to load metadata exported via pprint"

/-- Lines 149–157 of `__reinit__`: `json.load` the record; on a
`JSONDecodeError`, fall back to the legacy textual `eval` only when the
`VERSUCHUNG_METADATA_EVAL` environment variable is set, and otherwise
raise the corrupt-record `RuntimeError`.  `json_result` is what
`json.load` yields (`none` meaning `JSONDecodeError`), `eval_result`
what `eval` of the file text would yield. -/
def load_metadata_record (eval_toggle : Bool) (json_result : Option Metadata)
    (eval_result : Metadata) : MetadataLoadResult :=
  match json_result with
  | some m => .ok m
  | none =>
    if eval_toggle then .ok eval_result
    else .corruptRecord metadata_eval_error_message

/-- **C4.** A record that does not parse as JSON makes re-hydration fail
with the distinct corrupt-record error whenever the opt-in toggle is
unset — uniformly in whatever the legacy eval would have produced, so
the fallback is never consulted by default; with the toggle set the
fallback result is used, and a parseable record never errors. -/
theorem corrupt_record_fails_loudly :
    (∀ ev : Metadata, load_metadata_record false none ev
        = MetadataLoadResult.corruptRecord metadata_eval_error_message)
    ∧ (∀ ev : Metadata,
        load_metadata_record true none ev = MetadataLoadResult.ok ev)
    ∧ (∀ (t : Bool) (m ev : Metadata),
        load_metadata_record t (some m) ev = MetadataLoadResult.ok m) :=
  ⟨fun _ => rfl, fun _ => rfl, fun _ _ _ => rfl⟩

/-- A Python exception, as far as `execute_run`'s handler can tell:
whether it is an instance of `RuntimeError`, and its message. -/
structure Exc where
  isRuntimeError : Bool
  message : String
deriving DecidableEq

/-- The mutable state `execute_run` touches: the process working
directory, the directory remembered by `execute_setup`, the result
directory, whether the scratch directory still exists, and the record
persisted inside the result directory. -/
structure ExecState where
  cwd : String
  startup_directory : String
  base_directory : String
  tmp_exists : Bool
  record : Metadata
deriving DecidableEq

/-- `execute_run` (lines 273–288): `os.chdir` into the result directory,
run the user's `run()` (its outcome is `runOutcome`; `none` = normal
return).  A raised `RuntimeError` is caught: after the optional
suspension pause the scratch directory is removed and the exception
re-raised.  Any other exception propagates untouched.  The `finally`
block restores `startup_directory` on every path.  (`suspend_on_error`
only prints and `SIGSTOP`s the process before cleanup; it changes no
modelled state.) -/
def execute_run (s : ExecState) (runOutcome : Option Exc)
    (suspend_on_error : Bool) : ExecState × Option Exc :=
  let s1 : ExecState := { s with cwd := s.base_directory }
  match runOutcome with
  | none => ({ s1 with cwd := s1.startup_directory }, none)
  | some e =>
    if e.isRuntimeError then
      let s2 : ExecState := { s1 with tmp_exists := false }
      ({ s2 with cwd := s2.startup_directory }, some e)
    else
      ({ s1 with cwd := s1.startup_directory }, some e)

/-- Lines 382–390: the record `__calculate_metadata` persists before the
user's work runs — the configuration map plus `date-start` and the
identity bookkeeping fields (`experiment-version` is stored here
stringified; JSON serializes it as a number). -/
def written_start_record (inputs : List (String × InputDecl)) (title : String)
    (version : Nat) (hash : String) (date_start : String) : Metadata :=
  let md := build_metadata inputs
  let md := dictInsert md "date-start" date_start
  let md := dictInsert md "experiment-name" title
  let md := dictInsert md "experiment-version" (toString version)
  dictInsert md "experiment-hash" hash

/-- Lines 411–413 (`after_experiment_run`): only at successful teardown
does the record gain `date-end`. -/
def written_end_record (r : Metadata) (date_end : String) : Metadata :=
  dictInsert r "date-end" date_end

lemma execute_run_record (s : ExecState) (r : Option Exc) (b : Bool) :
    (execute_run s r b).1.record = s.record := by
  cases r with
  | none => rfl
  | some e => by_cases h : e.isRuntimeError <;> simp [execute_run, h]

lemma written_start_record_find_start (inputs : List (String × InputDecl))
    (title : String) (version : Nat) (hash ds : String) :
    dictFind (written_start_record inputs title version hash ds) "date-start"
      = some ds := by
  unfold written_start_record
  rw [dictFind_dictInsert, dictFind_dictInsert, dictFind_dictInsert,
    dictFind_dictInsert]
  simp

lemma written_start_record_find_end (inputs : List (String × InputDecl))
    (title : String) (version : Nat) (hash ds : String) :
    dictFind (written_start_record inputs title version hash ds) "date-end"
      = dictFind (build_metadata inputs) "date-end" := by
  unfold written_start_record
  rw [dictFind_dictInsert, dictFind_dictInsert, dictFind_dictInsert,
    dictFind_dictInsert]
  simp

/-- A concrete pre-run state: the identity has been computed and the
start record written, the scratch directory exists. -/
def sampleRunState : ExecState :=
  { cwd := "/res/E-abc"
  , startup_directory := "/home/user"
  , base_directory := "/res/E-abc"
  , tmp_exists := true
  , record := written_start_record [("n", InputDecl.scalarString "1")] "E" 1
      "abc" "2026-10-12 10:00:00" }

/-- **C5 fails as stated**: the handler of `execute_run` catches only
`RuntimeError`.  A `run()` that raises any other exception (here a
`ValueError`) propagates it, but the scratch directory is *not*
removed — contradicting "for every run in which run() raises an
exception … the engine removes the scratch (tmp) directory". -/
theorem execute_run_counterexample :
    (execute_run sampleRunState (some ⟨false, "ValueError"⟩) false).1.tmp_exists
        = true
    ∧ (execute_run sampleRunState (some ⟨false, "ValueError"⟩) false).2
        = some ⟨false, "ValueError"⟩ := by
  constructor <;> rfl

/-- **C5 (amended).** When the user's `run()` raises a `RuntimeError`
(the class the engine catches; non-suspend policy), the scratch
directory is removed and the original exception re-raised, while the
result directory's record — untouched by `execute_run` — still holds a
`date-start` entry and no `date-end` entry.  Exceptions of other
classes are also re-raised, but without the scratch cleanup. -/
theorem execute_run_runtime_error_cleanup
    (s : ExecState) (e : Exc) (inputs : List (String × InputDecl))
    (title : String) (version : Nat) (hash ds : String)
    (hre : e.isRuntimeError = true)
    (hrec : s.record = written_start_record inputs title version hash ds)
    (hde : dictFind (build_metadata inputs) "date-end" = none) :
    (execute_run s (some e) false).1.tmp_exists = false
    ∧ (execute_run s (some e) false).2 = some e
    ∧ (execute_run s (some e) false).1.record = s.record
    ∧ dictFind (execute_run s (some e) false).1.record "date-start" = some ds
    ∧ dictFind (execute_run s (some e) false).1.record "date-end" = none := by
  have hrec' : (execute_run s (some e) false).1.record = s.record :=
    execute_run_record s (some e) false
  refine ⟨?_, ?_, hrec', ?_, ?_⟩
  · simp [execute_run, hre]
  · simp [execute_run, hre]
  · rw [hrec', hrec, written_start_record_find_start]
  · rw [hrec', hrec, written_start_record_find_end, hde]

/-- Witness for the amended C5 at a concrete failing `RuntimeError` run. -/
theorem execute_run_runtime_error_cleanup_witness :
    (execute_run sampleRunState (some ⟨true, "boom"⟩) false).1.tmp_exists = false
    ∧ (execute_run sampleRunState (some ⟨true, "boom"⟩) false).2
        = some ⟨true, "boom"⟩
    ∧ (execute_run sampleRunState (some ⟨true, "boom"⟩) false).1.record
        = sampleRunState.record
    ∧ dictFind (execute_run sampleRunState (some ⟨true, "boom"⟩) false).1.record
        "date-start" = some "2026-10-12 10:00:00"
    ∧ dictFind (execute_run sampleRunState (some ⟨true, "boom"⟩) false).1.record
        "date-end" = none :=
  execute_run_runtime_error_cleanup sampleRunState ⟨true, "boom"⟩
    [("n", InputDecl.scalarString "1")] "E" 1 "abc" "2026-10-12 10:00:00"
    rfl rfl (by decide)

/-- `Directory.__enter__` (types.py lines 209–212): remember
`os.path.abspath(os.curdir)` in `olddir` and `os.chdir(self.path)`.
Returns the new working directory and the saved one. -/
def directory_enter (cwd : String) (dirPath : String) : String × String :=
  (dirPath, cwd)

/-- `Directory.__exit__` (types.py lines 213–214):
`os.chdir(self.olddir)`, ignoring any exception information. -/
def directory_exit (cwd olddir : String) : String := olddir

/-- A `with directory:` block: `__enter__`, then the body — which may
move the working directory and may raise — then `__exit__`, which
Python runs on the normal and on the exceptional path alike.  Returns
the final working directory and the escaping exception, if any. -/
def directory_withBlock (cwd0 dirPath : String)
    (body : String → String × Option Exc) : String × Option Exc :=
  let entered := directory_enter cwd0 dirPath
  let bodyResult := body entered.1
  (directory_exit bodyResult.1 entered.2, bodyResult.2)

/-- **C6.** The working directory is restored on every exit path: after
`execute_run` — whether `run()` returned, raised a caught
`RuntimeError`, or raised anything else — the working directory is back
to the one recorded at setup; and a `Directory` with-block always
restores the working directory it was entered from, for every body and
every exception outcome. -/
theorem working_directory_restored :
    (∀ (s : ExecState) (r : Option Exc) (b : Bool),
        (execute_run s r b).1.cwd = s.startup_directory)
    ∧ (∀ (cwd0 dirPath : String) (body : String → String × Option Exc),
        (directory_withBlock cwd0 dirPath body).1 = cwd0) := by
  constructor
  · intro s r b
    cases r with
    | none => rfl
    | some e => by_cases h : e.isRuntimeError <;> simp [execute_run, h]
  · intro cwd0 dirPath body
    rfl

/-- Whether a filename begins with a dot (a hidden entry). -/
def isHidden (f : String) : Bool :=
  match f.data with
  | [] => false
  | c :: _ => c = '.'

/-- `glob.glob(os.path.join(dir, "*"))` over a directory listing:
fnmatch's `*` does not match a leading dot, so hidden entries are not
produced. -/
def glob_star (entries : List String) : List String :=
  entries.filter (fun f => !isHidden f)

/-- Lines 369–375: each globbed entry of the pre-existing result
directory is deleted (`shutil.rmtree` / `os.unlink`); the listing keeps
exactly the entries `glob` did not produce. -/
def clear_existing_directory (entries : List String) : List String :=
  entries.filter (fun f => !(glob_star entries).contains f)

/-- Creating a filesystem entry `name` inside a directory listing. -/
def addEntry (name : String) (entries : List String) : List String :=
  if entries.contains name then entries else entries ++ [name]

/-- The result-directory listing right after `__calculate_metadata`
(lines 369–390): clear a pre-existing directory, or `mkdir` a fresh
one, then write the `metadata` record file. -/
def result_dir_after_identify (preexisting : Option (List String)) : List String :=
  match preexisting with
  | some entries => addEntry "metadata" (clear_existing_directory entries)
  | none => addEntry "metadata" []

/-- Directory listing after a full run: identify (wiping any previous
contents), then let output setup and the user's work create
`artifacts`. -/
def run_result_contents (preexisting : Option (List String))
    (artifacts : List String) : List String :=
  artifacts.foldl (fun es a => addEntry a es) (result_dir_after_identify preexisting)

lemma clear_existing_directory_eq (entries : List String) :
    clear_existing_directory entries
      = entries.filter (fun f => isHidden f) := by
  unfold clear_existing_directory
  apply List.filter_congr
  intro f hf
  by_cases h : isHidden f
  · have : f ∉ glob_star entries := by
      unfold glob_star
      simp [List.mem_filter, h]
    simp [h, this]
  · have : f ∈ glob_star entries := by
      unfold glob_star
      simp [List.mem_filter, hf, h]
    simp [h, this]

lemma mem_addEntry (f a : String) (es : List String) :
    f ∈ addEntry a es ↔ f ∈ es ∨ f = a := by
  unfold addEntry
  by_cases h : es.contains a
  · have ha : a ∈ es := by simpa using h
    simp only [h, if_true]
    constructor
    · exact Or.inl
    · rintro (hf | rfl)
      · exact hf
      · exact ha
  · simp only [h, if_false]
    simp [List.mem_append]

lemma mem_foldl_addEntry (artifacts : List String) (init : List String)
    (f : String) :
    f ∈ artifacts.foldl (fun es a => addEntry a es) init
      ↔ f ∈ init ∨ f ∈ artifacts := by
  induction artifacts generalizing init with
  | nil => simp
  | cons a rest ih =>
    simp only [List.foldl_cons, ih, mem_addEntry, List.mem_cons]
    tauto

/-- **C7 fails as stated**: `glob('*')` does not list hidden entries,
so a dot-prefixed file left by the first run survives the wipe.  First
run's work creates `.cache` and `out1`; the second run (identical
identity, artifacts `out2`) still finds `.cache` in its result
directory even though it is no artifact of the second run. -/
theorem second_run_keeps_hidden_leftover :
    clear_existing_directory [".cache"] = [".cache"]
    ∧ ".cache" ∈ run_result_contents
        (some (run_result_contents none [".cache", "out1"])) ["out2"]
    ∧ (".cache" ∉ (["out2"] : List String) ∧ ".cache" ≠ "metadata") := by
  refine ⟨by decide, by decide, by decide, by decide⟩

/-- **C7 (amended).** When a fresh run's identity names an existing
result directory, every entry whose name does not begin with a dot is
destructively cleared before output setup (`glob('*')` skips hidden
entries), so the second run's directory holds only the second run's
artifacts, the `metadata` record, and dot-prefixed leftovers. -/
theorem existing_directory_cleared (prior artifacts : List String) :
    (∀ f ∈ prior, ¬isHidden f → f ∉ clear_existing_directory prior)
    ∧ (∀ f ∈ run_result_contents (some prior) artifacts,
        f ∈ artifacts ∨ f = "metadata" ∨ (f ∈ prior ∧ isHidden f)) := by
  constructor
  · intro f _ hdot
    rw [clear_existing_directory_eq]
    simp [List.mem_filter, hdot]
  · intro f hf
    unfold run_result_contents at hf
    rw [mem_foldl_addEntry] at hf
    rcases hf with hf | hf
    · unfold result_dir_after_identify at hf
      rw [mem_addEntry] at hf
      rcases hf with hf | rfl
      · rw [clear_existing_directory_eq] at hf
        rw [List.mem_filter] at hf
        exact Or.inr (Or.inr ⟨hf.1, hf.2⟩)
      · exact Or.inr (Or.inl rfl)
    · exact Or.inl hf

/-- Witness for the amended C7: a visible leftover is cleared, and each
entry of a concrete second-run directory is accounted for. -/
theorem existing_directory_cleared_witness :
    "out1" ∉ clear_existing_directory ["out1", ".keep"]
    ∧ ("out2" ∈ (["out2"] : List String)
        ∨ "out2" = "metadata"
        ∨ ("out2" ∈ (["out1", ".keep"] : List String)
            ∧ isHidden "out2")) :=
  ⟨(existing_directory_cleared ["out1", ".keep"] ["out2"]).1 "out1"
      (by decide) (by decide),
    (existing_directory_cleared ["out1", ".keep"] ["out2"]).2 "out2"
      (by decide)⟩

/-- Observable steps of `execute_setup`/`execute_run`, in the order the
engine performs them. -/
inductive Event where
  /-- `inp_extract_cmdline_parser` on a declared (non-lambda) input. -/
  | parseInput (name : String)
  /-- `inp = inp(self)` on a lambda input, installed as a named input. -/
  | resolveLambda (name : String)
  /-- `tempfile.mkdtemp()` for the scratch directory. -/
  | tmpDirSetup
  /-- `before_experiment_run("input")` of an input. -/
  | inputBeforeRun (name : String)
  /-- `__calculate_metadata()`: identity computed, result directory
  allocated/reused, start record written. -/
  | computeIdentity
  /-- `before_experiment_run("output")` of an output (its setup hook). -/
  | outputSetup (name : String)
  /-- The user's `run()` method. -/
  | userRun
deriving DecidableEq

/-- The event sequence of `before_experiment_run("output")`
(lines 312–347): parse every non-lambda input, resolve every lambda
input, make the scratch directory, run the inputs' before-hooks,
compute the identity, then run the outputs' setup hooks. -/
def before_experiment_run_trace (e : Experiment) : List Event :=
  (e.inputs.filterMap
      (fun ni => if isDeferred ni.2 then none else some (Event.parseInput ni.1)))
    ++ (e.inputs.filterMap
      (fun ni => if isDeferred ni.2 then some (Event.resolveLambda ni.1) else none))
    ++ [Event.tmpDirSetup]
    ++ (e.inputs.map (fun ni => Event.inputBeforeRun ni.1))
    ++ [Event.computeIdentity]
    ++ (e.outputs.map (fun no => Event.outputSetup no.1))

/-- The event sequence of `execute`: setup, then `execute_run` calls the
user's `run()`. -/
def execute_trace (e : Experiment) : List Event :=
  before_experiment_run_trace e ++ [Event.userRun]

/-- Everything the engine does before identity computation. -/
def inputPhase (e : Experiment) : List Event :=
  (e.inputs.filterMap
      (fun ni => if isDeferred ni.2 then none else some (Event.parseInput ni.1)))
    ++ (e.inputs.filterMap
      (fun ni => if isDeferred ni.2 then some (Event.resolveLambda ni.1) else none))
    ++ [Event.tmpDirSetup]
    ++ (e.inputs.map (fun ni => Event.inputBeforeRun ni.1))

/-- Everything the engine does after identity computation. -/
def outputPhase (e : Experiment) : List Event :=
  (e.outputs.map (fun no => Event.outputSetup no.1)) ++ [Event.userRun]

lemma execute_trace_eq (e : Experiment) :
    execute_trace e = inputPhase e ++ Event.computeIdentity :: outputPhase e := by
  unfold execute_trace before_experiment_run_trace inputPhase outputPhase
  simp [List.append_assoc]

/-- Events belonging to the input-resolution phase. -/
def isInputEvent : Event → Bool
  | .parseInput _ => true
  | .resolveLambda _ => true
  | .tmpDirSetup => true
  | .inputBeforeRun _ => true
  | _ => false

/-- Events belonging to the post-identity phase. -/
def isOutputEvent : Event → Bool
  | .outputSetup _ => true
  | .userRun => true
  | _ => false

lemma mem_inputPhase_shape {e : Experiment} {x : Event}
    (h : x ∈ inputPhase e) : isInputEvent x = true := by
  unfold inputPhase at h
  simp only [List.mem_append, List.mem_filterMap, List.mem_map,
    List.mem_singleton] at h
  rcases h with (((⟨ni, _, hni⟩ | ⟨ni, _, hni⟩) | rfl) | ⟨ni, _, hni⟩)
  · split at hni
    · exact absurd hni (by simp)
    · cases Option.some.inj hni; rfl
  · split at hni
    · cases Option.some.inj hni; rfl
    · exact absurd hni (by simp)
  · rfl
  · cases hni; rfl

lemma mem_outputPhase_shape {e : Experiment} {x : Event}
    (h : x ∈ outputPhase e) : isOutputEvent x = true := by
  unfold outputPhase at h
  simp only [List.mem_append, List.mem_map, List.mem_singleton] at h
  rcases h with ⟨no, _, rfl⟩ | rfl <;> rfl

lemma getElem?_some_mem {α : Type} {l : List α} {i : Nat} {x : α}
    (h : l[i]? = some x) : x ∈ l := by
  obtain ⟨hl, he⟩ := List.getElem?_eq_some_iff.mp h
  exact he ▸ List.getElem_mem hl

lemma pos_lt_of_not_mem_right {α : Type} {l1 l2 : List α} {x : α}
    (hx : x ∉ l2) {j : Nat} (h : (l1 ++ l2)[j]? = some x) : j < l1.length := by
  by_contra hge
  push_neg at hge
  rw [List.getElem?_append_right hge] at h
  exact hx (getElem?_some_mem h)

lemma pos_ge_of_not_mem_left {α : Type} {l1 l2 : List α} {x : α}
    (hx : x ∉ l1) {j : Nat} (h : (l1 ++ l2)[j]? = some x) : l1.length ≤ j := by
  by_contra hlt
  push_neg at hlt
  rw [List.getElem?_append_left hlt] at h
  exact hx (getElem?_some_mem h)

lemma pos_eq_of_middle {α : Type} {l1 l2 : List α} {c : α}
    (h1 : c ∉ l1) (h2 : c ∉ l2) {i : Nat}
    (h : (l1 ++ c :: l2)[i]? = some c) : i = l1.length := by
  have hge : l1.length ≤ i := pos_ge_of_not_mem_left h1 h
  rw [List.getElem?_append_right hge] at h
  rcases Nat.lt_or_ge l1.length i with hlt | hge'
  · have hd : i - l1.length = (i - l1.length - 1) + 1 := by omega
    rw [hd, List.getElem?_cons_succ] at h
    exact absurd (getElem?_some_mem h) h2
  · omega

/-- **C8.** In every execution trace, the identity computation sits
strictly after every input-parsing and lambda-resolution step, strictly
before every output setup hook, and strictly before the user's `run()`. -/
theorem identity_between_inputs_and_outputs (e : Experiment) (i : Nat)
    (hci : (execute_trace e)[i]? = some Event.computeIdentity) :
    (∀ (j : Nat) (n : String),
        ((execute_trace e)[j]? = some (Event.parseInput n)
          ∨ (execute_trace e)[j]? = some (Event.resolveLambda n)) → j < i)
    ∧ (∀ (k : Nat) (m : String),
        (execute_trace e)[k]? = some (Event.outputSetup m) → i < k)
    ∧ (∀ r : Nat, (execute_trace e)[r]? = some Event.userRun → i < r) := by
  rw [execute_trace_eq] at hci
  have hcin : Event.computeIdentity ∉ inputPhase e := fun hmem => by
    simpa [isInputEvent] using mem_inputPhase_shape hmem
  have hcout : Event.computeIdentity ∉ outputPhase e := fun hmem => by
    simpa [isOutputEvent] using mem_outputPhase_shape hmem
  have hi : i = (inputPhase e).length := pos_eq_of_middle hcin hcout hci
  refine ⟨?_, ?_, ?_⟩
  · intro j n hj
    rw [execute_trace_eq] at hj
    have hnot : ∀ y : Event, isInputEvent y = true →
        y ∉ Event.computeIdentity :: outputPhase e := by
      intro y hy hmem
      rcases List.mem_cons.mp hmem with rfl | hmem'
      · simp [isInputEvent] at hy
      · have := mem_outputPhase_shape hmem'
        cases y <;> simp_all [isInputEvent, isOutputEvent]
    rcases hj with hj | hj
    · have := pos_lt_of_not_mem_right (hnot (Event.parseInput n) rfl) hj
      omega
    · have := pos_lt_of_not_mem_right (hnot (Event.resolveLambda n) rfl) hj
      omega
  · intro k m hk
    rw [execute_trace_eq] at hk
    have hnot : Event.outputSetup m ∉ inputPhase e := fun hmem => by
      simpa [isInputEvent] using mem_inputPhase_shape hmem
    have hge : (inputPhase e).length ≤ k := pos_ge_of_not_mem_left hnot hk
    have hne : k ≠ (inputPhase e).length := by
      intro hkeq
      rw [hkeq] at hk
      rw [List.getElem?_append_right (Nat.le_refl _)] at hk
      simp at hk
    omega
  · intro r hr
    rw [execute_trace_eq] at hr
    have hnot : Event.userRun ∉ inputPhase e := fun hmem => by
      simpa [isInputEvent] using mem_inputPhase_shape hmem
    have hge : (inputPhase e).length ≤ r := pos_ge_of_not_mem_left hnot hr
    have hne : r ≠ (inputPhase e).length := by
      intro hreq
      rw [hreq] at hr
      rw [List.getElem?_append_right (Nat.le_refl _)] at hr
      simp at hr
    omega

/-- A concrete experiment with a parsed input, a lambda input and an
output, used to witness the trace ordering. -/
def sampleTraceExperiment : Experiment :=
  ⟨"E", 1,
    [("a", InputDecl.scalarString "1"),
      ("b", InputDecl.deferred (InputDecl.scalarString "2"))],
    [("o", ⟨"f.txt"⟩)]⟩

/-- Witness for C8 on `sampleTraceExperiment`, whose trace is
`[parseInput a, resolveLambda b, tmpDirSetup, inputBeforeRun a,
inputBeforeRun b, computeIdentity, outputSetup o, userRun]`. -/
theorem identity_between_inputs_and_outputs_witness :
    (0 : Nat) < 5 ∧ (5 : Nat) < 6 ∧ (5 : Nat) < 7 :=
  ⟨(identity_between_inputs_and_outputs sampleTraceExperiment 5 (by decide)).1
      0 "a" (Or.inl (by decide)),
    (identity_between_inputs_and_outputs sampleTraceExperiment 5 (by decide)).2.1
      6 "o" (by decide),
    (identity_between_inputs_and_outputs sampleTraceExperiment 5 (by decide)).2.2
      7 (by decide)⟩

/-- A parameter object on the Python heap: the name and base directory
its container assigns, and the declared payload. -/
structure ParamObj where
  pname : Option String
  base_dir : Option String
  payload : InputDecl
deriving DecidableEq

instance : Inhabited ParamObj := ⟨⟨none, none, InputDecl.bare⟩⟩

/-- The heap of parameter objects; an object's identity is the index at
which it was allocated. -/
abbrev Heap := List ParamObj

/-- Dereference. -/
def hget (h : Heap) (r : Nat) : Option ParamObj := h[r]?

/-- In-place mutation of the object at `r`. -/
def hset (h : Heap) (r : Nat) (o : ParamObj) : Heap := h.set r o

/-- Allocation of a new object; returns the heap and the new reference. -/
def halloc (h : Heap) (o : ParamObj) : Heap × Nat := (h ++ [o], h.length)

/-- `copy.deepcopy` of a name→object dict (lines 164 and 166): every
referenced object is cloned into a fresh allocation, and the copy
references the clone, never the original. -/
def deepcopy_decls : Heap → List (String × Nat) → Heap × List (String × Nat)
  | h, [] => (h, [])
  | h, d :: rest =>
    let obj := (hget h d.2).getD default
    let ar := halloc h obj
    let hr := deepcopy_decls ar.1 rest
    (hr.1, (d.1, ar.2) :: hr.2)

/-- Modelled from the spec: the engine "assigns names and base
directories" to its instance-owned copies after deep-copying (the
concrete assignment happens through `self.subobjects[name] = inp` and
`propagate_meta_data` in `versuchung.tools`/`versuchung.types`, whose
current sources are not in the repository snapshot).  Each listed
reference has its object's name set in place. -/
def assign_names : Heap → List (String × Nat) → Heap
  | h, [] => h
  | h, d :: rest =>
    let h' := match hget h d.2 with
      | some o => hset h d.2 { o with pname := some d.1 }
      | none => h
    assign_names h' rest

/-- The class-level declaration attribute of an `Experiment` subclass:
the shared `inputs` and `outputs` dicts of parameter-object templates. -/
structure ExperimentClass where
  inputs : List (String × Nat)
  outputs : List (String × Nat)
deriving DecidableEq

/-- `__reinit__`'s copy phase (lines 163–167) followed by the name
assignment on the copies. -/
def reinit_copy (h : Heap) (cls : ExperimentClass) :
    Heap × List (String × Nat) × List (String × Nat) :=
  let ci := deepcopy_decls h cls.inputs
  let co := deepcopy_decls ci.1 cls.outputs
  let h3 := assign_names co.1 ci.2
  let h4 := assign_names h3 co.2
  (h4, ci.2, co.2)

/-- `__init__` (lines 114–136) as far as declarations are concerned:
an explicit `inputs`/`outputs` argument is stored into
`self.__class__.inputs` / `self.__class__.outputs` — the shared class
attribute — and then `__reinit__` deep-copies the (possibly rebound)
class attribute.  Returns the class attribute after construction, the
heap, and the instance-owned input/output reference dicts. -/
def experiment_init_decls (h : Heap) (cls : ExperimentClass)
    (inputsArg outputsArg : Option (List (String × Nat))) :
    ExperimentClass × Heap × List (String × Nat) × List (String × Nat) :=
  let cls' : ExperimentClass :=
    { inputs := inputsArg.getD cls.inputs
    , outputs := outputsArg.getD cls.outputs }
  (cls', reinit_copy h cls')

lemma deepcopy_decls_hget (ds : List (String × Nat)) (h : Heap) (r : Nat)
    (hr : r < h.length) : hget (deepcopy_decls h ds).1 r = hget h r := by
  induction ds generalizing h with
  | nil => rfl
  | cons d rest ih =>
    show hget (deepcopy_decls (h ++ [(hget h d.2).getD default]) rest).1 r = hget h r
    rw [ih (h ++ [(hget h d.2).getD default]) (by simp; omega)]
    unfold hget
    exact List.getElem?_append_left hr

lemma deepcopy_decls_length (ds : List (String × Nat)) (h : Heap) :
    h.length ≤ (deepcopy_decls h ds).1.length := by
  induction ds generalizing h with
  | nil => exact Nat.le_refl _
  | cons d rest ih =>
    have := ih (h ++ [(hget h d.2).getD default])
    simp only [List.length_append, List.length_singleton] at this
    exact Nat.le_trans (by omega) this

lemma deepcopy_decls_fresh (ds : List (String × Nat)) (h : Heap) :
    ∀ p ∈ (deepcopy_decls h ds).2, h.length ≤ p.2 := by
  induction ds generalizing h with
  | nil => intro p hp; cases hp
  | cons d rest ih =>
    intro p hp
    rcases List.mem_cons.mp hp with rfl | hp'
    · exact Nat.le_refl _
    · have := ih (h ++ [(hget h d.2).getD default]) p hp'
      simp only [List.length_append, List.length_singleton] at this
      omega

lemma assign_names_hget (ds : List (String × Nat)) (h : Heap) (bound : Nat)
    (hds : ∀ p ∈ ds, bound ≤ p.2) (r : Nat) (hr : r < bound) :
    hget (assign_names h ds) r = hget h r := by
  induction ds generalizing h with
  | nil => rfl
  | cons d rest ih =>
    have hd : bound ≤ d.2 := hds d (List.mem_cons_self d _)
    have hrest : ∀ p ∈ rest, bound ≤ p.2 :=
      fun p hp => hds p (List.mem_cons_of_mem d hp)
    show hget (assign_names (match hget h d.2 with
      | some o => hset h d.2 { o with pname := some d.1 }
      | none => h) rest) r = hget h r
    rw [ih _ hrest]
    cases hgd : hget h d.2 with
    | none => rfl
    | some o =>
      simp only
      unfold hget hset
      exact List.getElem?_set_ne (by omega)

/-- **C9 fails as stated**: constructing an instance with an explicit
`inputs` argument executes `self.__class__.inputs = inputs` (line 131),
rebinding the shared class-level declaration.  Concretely, a class
declaring input `"n"` (template at heap address 0) has an empty
class-level input dict after `Experiment(inputs={})` is constructed. -/
theorem instantiation_mutates_class_decls_counterexample :
    (experiment_init_decls [⟨none, none, InputDecl.scalarString "1"⟩]
        ⟨[("n", 0)], []⟩ (some []) none).1
      ≠ ⟨[("n", 0)], []⟩ := by decide

/-- **C9 (amended).** Instantiation deep-copies the current class-level
declaration templates into freshly allocated instance-owned objects and
assigns names only on the copies: no pre-existing heap object (in
particular no class-level template) is ever mutated, and the
instance-owned references are all fresh.  The class-level declaration
attribute itself is unchanged when the constructor is called without
explicit `inputs`/`outputs` arguments; passing such an argument rebinds
it (lines 130–133). -/
theorem instantiation_preserves_class_templates (h : Heap)
    (cls : ExperimentClass) (iArg oArg : Option (List (String × Nat))) :
    (∀ r : Nat, r < h.length →
        hget (experiment_init_decls h cls iArg oArg).2.1 r = hget h r)
    ∧ (∀ p ∈ (experiment_init_decls h cls iArg oArg).2.2.1, h.length ≤ p.2)
    ∧ (∀ p ∈ (experiment_init_decls h cls iArg oArg).2.2.2, h.length ≤ p.2)
    ∧ (experiment_init_decls h cls none none).1 = cls := by
  have hlen1 : h.length ≤ (deepcopy_decls h (iArg.getD cls.inputs)).1.length :=
    deepcopy_decls_length (iArg.getD cls.inputs) h
  have hfresh_i : ∀ p ∈ (deepcopy_decls h (iArg.getD cls.inputs)).2,
      h.length ≤ p.2 := deepcopy_decls_fresh (iArg.getD cls.inputs) h
  have hfresh_o : ∀ p ∈ (deepcopy_decls (deepcopy_decls h (iArg.getD cls.inputs)).1
        (oArg.getD cls.outputs)).2,
      h.length ≤ p.2 := by
    intro p hp
    exact Nat.le_trans hlen1
      (deepcopy_decls_fresh (oArg.getD cls.outputs) _ p hp)
  refine ⟨?_, ?_, ?_, rfl⟩
  · intro r hr
    show hget (assign_names
        (assign_names
          (deepcopy_decls (deepcopy_decls h (iArg.getD cls.inputs)).1
            (oArg.getD cls.outputs)).1
          (deepcopy_decls h (iArg.getD cls.inputs)).2)
        (deepcopy_decls (deepcopy_decls h (iArg.getD cls.inputs)).1
          (oArg.getD cls.outputs)).2) r = hget h r
    rw [assign_names_hget _ _ h.length hfresh_o r hr]
    rw [assign_names_hget _ _ h.length hfresh_i r hr]
    rw [deepcopy_decls_hget (oArg.getD cls.outputs) _ r (Nat.lt_of_lt_of_le hr hlen1)]
    exact deepcopy_decls_hget (iArg.getD cls.inputs) h r hr
  · intro p hp
    exact hfresh_i p hp
  · intro p hp
    exact hfresh_o p hp

/-- Witness for the amended C9: a concrete instantiation leaves the
class template object at address 0 untouched, allocates the copy
freshly, and keeps the class attribute without explicit arguments. -/
theorem instantiation_preserves_class_templates_witness :
    hget (experiment_init_decls [⟨none, none, InputDecl.scalarString "1"⟩]
        ⟨[("n", 0)], []⟩ none none).2.1 0
      = hget [⟨none, none, InputDecl.scalarString "1"⟩] 0
    ∧ (1 : Nat) ≤ 1
    ∧ (experiment_init_decls [⟨none, none, InputDecl.scalarString "1"⟩]
        ⟨[("n", 0)], []⟩ none none).1 = ⟨[("n", 0)], []⟩ :=
  ⟨(instantiation_preserves_class_templates
      [⟨none, none, InputDecl.scalarString "1"⟩] ⟨[("n", 0)], []⟩ none none).1
      0 (by decide),
    (instantiation_preserves_class_templates
      [⟨none, none, InputDecl.scalarString "1"⟩] ⟨[("n", 0)], []⟩ none none).2.1
      ("n", 1) (by decide),
    (instantiation_preserves_class_templates
      [⟨none, none, InputDecl.scalarString "1"⟩] ⟨[("n", 0)], []⟩ none none).2.2.2⟩

/-- Truthiness of an optional Python string (`None` and `""` falsy). -/
def truthy : Option String → Bool
  | none => false
  | some s => !(s == "")

/-- The observable outcome of `__reinit__` for hydration purposes. -/
structure HydrationState where
  base_directory : Option String
  metadata : Option Metadata
deriving DecidableEq

/-- `__reinit__(experiment_path)` (lines 138–161): with a truthy path
the base directory is resolved (path canonicalization abstracted away),
asserted to exist, and the record is loaded (see
`load_metadata_record`); with a falsy path both base directory and
metadata are `None` and nothing is checked.  `Except.error` stands for
a raised exception. -/
def experiment_reinit (fs_exists : String → Bool)
    (loadRecord : String → MetadataLoadResult) (path : Option String) :
    Except String HydrationState :=
  if truthy path then
    let p := path.getD ""
    if fs_exists p then
      match loadRecord p with
      | .ok m => Except.ok ⟨some p, some m⟩
      | .corruptRecord msg => Except.error msg
    else Except.error "assert os.path.exists(self.base_directory)"
  else Except.ok ⟨none, none⟩

/-- `__init__` (lines 134–136): a `default_experiment_instance` that
does not exist on the filesystem is silently replaced by `None` before
`__reinit__` runs. -/
def experiment_init_hydration (fs_exists : String → Bool)
    (loadRecord : String → MetadataLoadResult) (dei : Option String) :
    Except String HydrationState :=
  let dei' := if truthy dei && !fs_exists (dei.getD "") then none else dei
  experiment_reinit fs_exists loadRecord dei'

/-- `inp_extract_cmdline_parser` (lines 440–453): a missing or empty
option value raises `ExperimentError`; otherwise the value is resolved
to a path which must exist (the `assert` of line 452), and `__reinit__`
re-hydrates from it. -/
def inp_extract_experiment (fs_exists : String → Bool)
    (loadRecord : String → MetadataLoadResult) (optValue : Option String) :
    Except String HydrationState :=
  match optValue with
  | none => Except.error "Missing argument"
  | some v =>
    if v == "" then Except.error "Missing argument"
    else if fs_exists v then experiment_reinit fs_exists loadRecord (some v)
    else Except.error "Base Directory does not exist"

/-- **C10.** Constructing an experiment whose
`default_experiment_instance` names a nonexistent path raises nothing:
the constructor behaves as if no default instance had been given
(`base_directory = None`, no metadata loaded).  Only when the
experiment is consumed as an input parameter and its command-line value
is extracted is the missing directory rejected. -/
theorem missing_default_instance_silently_ignored
    (fs_exists : String → Bool) (loadRecord : String → MetadataLoadResult)
    (p : String) (hne : p ≠ "") (hmiss : fs_exists p = false) :
    experiment_init_hydration fs_exists loadRecord (some p)
        = Except.ok ⟨none, none⟩
    ∧ inp_extract_experiment fs_exists loadRecord (some p)
        = Except.error "Base Directory does not exist" := by
  constructor
  · unfold experiment_init_hydration
    simp only [truthy, Option.getD, hmiss]
    rw [if_pos (by simp [hne])]
    rfl
  · show (if (p == "") = true then Except.error "Missing argument"
        else if fs_exists p = true
          then experiment_reinit fs_exists loadRecord (some p)
          else Except.error "Base Directory does not exist")
        = (Except.error "Base Directory does not exist" :
            Except String HydrationState)
    rw [if_neg (by simp [hne]), if_neg (by simp [hmiss])]

/-- Witness for C10 at a concrete nonexistent result-directory name. -/
theorem missing_default_instance_silently_ignored_witness :
    experiment_init_hydration (fun _ => false)
        (fun _ => MetadataLoadResult.ok []) (some "SimpleExperiment-deadbeef")
        = Except.ok ⟨none, none⟩
    ∧ inp_extract_experiment (fun _ => false)
        (fun _ => MetadataLoadResult.ok []) (some "SimpleExperiment-deadbeef")
        = Except.error "Base Directory does not exist" :=
  missing_default_instance_silently_ignored (fun _ => false)
    (fun _ => MetadataLoadResult.ok []) "SimpleExperiment-deadbeef"
    (by decide) rfl
